import Mathlib

/-! Verification of `nfc/command.c`: CRC-CCITT engine and command-frame printer.

A shallow embedding of `CCITTCRCTable`, `GetCCITTCRC`, `print_command` and `main`.
Values of type `uint8_t`/`uint16_t` are natural numbers; every store into a 16-bit or
8-bit object is an explicit reduction modulo `65536` or `256`.
-/

namespace Command

/-- The constant `static const uint16_t CCITTCRCTable[256]` ("CRCs by byte"). -/
def CCITTCRCTable : List Nat :=
  [
   0x0000, 0x1021, 0x2042, 0x3063, 0x4084, 0x50a5, 0x60c6, 0x70e7, 0x8108, 0x9129, 0xa14a, 0xb16b,
   0xc18c, 0xd1ad, 0xe1ce, 0xf1ef, 0x1231, 0x0210, 0x3273, 0x2252, 0x52b5, 0x4294, 0x72f7, 0x62d6,
   0x9339, 0x8318, 0xb37b, 0xa35a, 0xd3bd, 0xc39c, 0xf3ff, 0xe3de, 0x2462, 0x3443, 0x0420, 0x1401,
   0x64e6, 0x74c7, 0x44a4, 0x5485, 0xa56a, 0xb54b, 0x8528, 0x9509, 0xe5ee, 0xf5cf, 0xc5ac, 0xd58d,
   0x3653, 0x2672, 0x1611, 0x0630, 0x76d7, 0x66f6, 0x5695, 0x46b4, 0xb75b, 0xa77a, 0x9719, 0x8738,
   0xf7df, 0xe7fe, 0xd79d, 0xc7bc, 0x48c4, 0x58e5, 0x6886, 0x78a7, 0x0840, 0x1861, 0x2802, 0x3823,
   0xc9cc, 0xd9ed, 0xe98e, 0xf9af, 0x8948, 0x9969, 0xa90a, 0xb92b, 0x5af5, 0x4ad4, 0x7ab7, 0x6a96,
   0x1a71, 0x0a50, 0x3a33, 0x2a12, 0xdbfd, 0xcbdc, 0xfbbf, 0xeb9e, 0x9b79, 0x8b58, 0xbb3b, 0xab1a,
   0x6ca6, 0x7c87, 0x4ce4, 0x5cc5, 0x2c22, 0x3c03, 0x0c60, 0x1c41, 0xedae, 0xfd8f, 0xcdec, 0xddcd,
   0xad2a, 0xbd0b, 0x8d68, 0x9d49, 0x7e97, 0x6eb6, 0x5ed5, 0x4ef4, 0x3e13, 0x2e32, 0x1e51, 0x0e70,
   0xff9f, 0xefbe, 0xdfdd, 0xcffc, 0xbf1b, 0xaf3a, 0x9f59, 0x8f78, 0x9188, 0x81a9, 0xb1ca, 0xa1eb,
   0xd10c, 0xc12d, 0xf14e, 0xe16f, 0x1080, 0x00a1, 0x30c2, 0x20e3, 0x5004, 0x4025, 0x7046, 0x6067,
   0x83b9, 0x9398, 0xa3fb, 0xb3da, 0xc33d, 0xd31c, 0xe37f, 0xf35e, 0x02b1, 0x1290, 0x22f3, 0x32d2,
   0x4235, 0x5214, 0x6277, 0x7256, 0xb5ea, 0xa5cb, 0x95a8, 0x8589, 0xf56e, 0xe54f, 0xd52c, 0xc50d,
   0x34e2, 0x24c3, 0x14a0, 0x0481, 0x7466, 0x6447, 0x5424, 0x4405, 0xa7db, 0xb7fa, 0x8799, 0x97b8,
   0xe75f, 0xf77e, 0xc71d, 0xd73c, 0x26d3, 0x36f2, 0x0691, 0x16b0, 0x6657, 0x7676, 0x4615, 0x5634,
   0xd94c, 0xc96d, 0xf90e, 0xe92f, 0x99c8, 0x89e9, 0xb98a, 0xa9ab, 0x5844, 0x4865, 0x7806, 0x6827,
   0x18c0, 0x08e1, 0x3882, 0x28a3, 0xcb7d, 0xdb5c, 0xeb3f, 0xfb1e, 0x8bf9, 0x9bd8, 0xabbb, 0xbb9a,
   0x4a75, 0x5a54, 0x6a37, 0x7a16, 0x0af1, 0x1ad0, 0x2ab3, 0x3a92, 0xfd2e, 0xed0f, 0xdd6c, 0xcd4d,
   0xbdaa, 0xad8b, 0x9de8, 0x8dc9, 0x7c26, 0x6c07, 0x5c64, 0x4c45, 0x3ca2, 0x2c83, 0x1ce0, 0x0cc1,
   0xef1f, 0xff3e, 0xcf5d, 0xdf7c, 0xaf9b, 0xbfba, 0x8fd9, 0x9ff8, 0x6e17, 0x7e36, 0x4e55, 0x5e74,
   0x2e93, 0x3eb2, 0x0ed1, 0x1ef0  ]

/-- The local `Temp` of `GetCCITTCRC`:
`Temp = (uint16_t)((CRC >> 8) ^ Data[Index]) & 0x00FF`. -/
def Temp (CRC b : Nat) : Nat :=
  (((CRC >>> 8) ^^^ b) % 65536) &&& 0x00FF

/-- One iteration of the loop body of `GetCCITTCRC`:
`CRC = CCITTCRCTable[Temp] ^ (CRC << 8)`, stored back into the `uint16_t` register. -/
def crcStep (CRC b : Nat) : Nat :=
  (CCITTCRCTable.getD (Temp CRC b) 0 ^^^ (CRC <<< 8)) % 65536

/-- Function `static uint16_t GetCCITTCRC(const uint8_t *Data, uint32_t Size)`: returns `0` when
`Size == 0`, otherwise runs the loop over `Data[0 .. Size-1]` from the register `0xFFFF`.
`Data` is the buffer behind the pointer; it holds at least `Size` bytes. -/
def GetCCITTCRC (Data : List Nat) (Size : Nat) : Nat :=
  if Size = 0 then 0
  else (Data.take Size).foldl crcStep 0xFFFF

/-- The table indices read at `CCITTCRCTable[Temp]` during a call of `GetCCITTCRC`, in order:
none on the early return, otherwise one per loop iteration. -/
def GetCCITTCRC_lookups (Data : List Nat) (Size : Nat) : List Nat :=
  if Size = 0 then []
  else ((Data.take Size).foldl
    (fun (st : Nat × List Nat) b => (crcStep st.1 b, st.2 ++ [Temp st.1 b])) (0xFFFF, [])).2

/-- The conversion `%02X` of `printf` applied to a non-negative value: uppercase
hexadecimal digits, padded with zeros on the left to a width of at least two. -/
def fmt02X (v : Nat) : String :=
  let ds := (Nat.toDigits 16 v).map Char.toUpper
  String.mk (List.replicate (2 - ds.length) '0' ++ ds)

/-- What one `%02X` conversion contributes to standard output: the value converted and the
literal text of the format string that follows it (`" "` or `"\n"`). -/
abbrev Emit := Nat × String

/-- Function `void print_command(uint8_t *data, uint16_t len)`: the `%02X` conversions performed by
its five `printf` statements, in order. `data` holds at least `len` bytes. -/
def print_command (data : List Nat) (len : Nat) : List Emit :=
  let data_crc := GetCCITTCRC data len
  let data_crc_len := (len + 2) % 65536
  let header := [0x02, data_crc_len &&& 0xFF, (data_crc_len >>> 8) &&& 0xFF]
  let header_crc := GetCCITTCRC header 3
  let out := header.foldl (fun out h => out ++ [(h, " ")]) []
  let out := out ++ [(header_crc &&& 0xFF, " "), ((header_crc >>> 8) &&& 0xFF, " ")]
  let out := (data.take len).foldl (fun out d => out ++ [(d, " ")]) out
  out ++ [(data_crc &&& 0xFF, " "), ((data_crc >>> 8) &&& 0xFF, "\n")]

/-- The bytes of the frame emitted by `print_command`: the values it converts, in order. -/
def frame (data : List Nat) (len : Nat) : List Nat :=
  (print_command data len).map Prod.fst

/-- The text that a sequence of `%02X` conversions writes to standard output. -/
def stdoutText (out : List Emit) : String :=
  out.foldl (fun s e => s ++ fmt02X e.1 ++ e.2) ""

/-- What a run of `main` leaves behind: the text on standard output and the exit status. -/
structure MainResult where
  stdout : String
  status : Int
deriving DecidableEq

/-- Function `int main(int argc, char *argv[])`. Here `argv0` is `argv[0]` and `args` is
`argv[1 .. argc-1]`, so `argc = args.length + 1`. The library function `strtol` is a
parameter (string and base to `long`); storing its result into a `uint8_t` reduces it
modulo `256`, and passing `sizeof(custom_data)` as a `uint16_t` reduces it modulo `65536`. -/
def main (strtol : String → Nat → Int) (argv0 : String) (args : List String) : MainResult :=
  let argc := args.length + 1
  if argc < 2 then
    { stdout := "Usage: " ++ argv0 ++ " <command> <data>\n", status := 1 }
  else
    let custom_data := args.map (fun a => (strtol a 16 % 256).toNat)
    { stdout := stdoutText (print_command custom_data ((argc - 1) % 65536)), status := 0 }

/-! ## Reference definitions stated in the words of the specification -/

/-- One round of the bit-by-bit CRC-CCITT register update: the 16-bit register is shifted
left by one modulo `2^16` and XORed with the polynomial `0x1021` when the bit shifted out
(bit 15 of the register before the shift) was `1`. -/
def bitRound (r : Nat) : Nat :=
  if r.testBit 15 then ((r <<< 1) % 65536) ^^^ 0x1021 else (r <<< 1) % 65536

/-- The standard bit-shifting table generation for polynomial `0x1021`: start from `i << 8`
and apply eight rounds. -/
def tableGen (i : Nat) : Nat :=
  bitRound^[8] (i <<< 8)

/-- The bit-by-bit reference update for one data byte: the byte is XORed into the high byte
of the register, then eight rounds are applied. -/
def bitByte (r b : Nat) : Nat :=
  bitRound^[8] (r ^^^ (b <<< 8))

/-- The bit-by-bit CRC-CCITT reference: polynomial `0x1021`, initial register `0xFFFF`,
most-significant bit first, no reflection, no final XOR. -/
def crcBitwise (data : List Nat) : Nat :=
  data.foldl bitByte 0xFFFF

/-- The uppercase hexadecimal digit of a value below sixteen. -/
def hexDigit (d : Nat) : Char :=
  ['0', '1', '2', '3', '4', '5', '6', '7', '8', '9', 'A', 'B', 'C', 'D', 'E', 'F'].getD d '?'

/-- A byte rendered as exactly two uppercase hexadecimal digits. -/
def twoHexDigits (b : Nat) : String :=
  String.mk [hexDigit (b / 16), hexDigit (b % 16)]

/-- A byte sequence rendered as two-digit uppercase hexadecimal octets, consecutive octets
separated by a single space, followed by one newline. -/
def hexLine (bytes : List Nat) : String :=
  String.intercalate " " (bytes.map twoHexDigits) ++ "\n"

/-! ## The loop of `GetCCITTCRC` with every array read checked -/

/-- The loop body of `GetCCITTCRC` with the read `CCITTCRCTable[Temp]` checked against the
256 entries of the table: `none` stands for a read outside the table. -/
def crcStep_checked (CRC b : Nat) : Option Nat :=
  (CCITTCRCTable[Temp CRC b]?).map (fun t => (t ^^^ (CRC <<< 8)) % 65536)

/-- The function `GetCCITTCRC` with both array reads of its loop checked, `Data[Index]`
against the buffer and `CCITTCRCTable[Temp]` against the table; `Index` runs from `0` to
`Size - 1` as in the `for` statement. -/
def GetCCITTCRC_checked (Data : List Nat) (Size : Nat) : Option Nat :=
  if Size = 0 then some 0
  else (List.range Size).foldlM
    (fun CRC Index => (Data[Index]?).bind (fun d => crcStep_checked CRC d)) 0xFFFF

/-! ## The library function `strtol` as `main` calls it

The function `strtol` belongs to the C library and not to the repository. The definitions of
this section model it from its documented behaviour; `main` itself takes the conversion as a
parameter, so only statements that name `strtol` depend on this model. -/

/-- Modelled from the spec: the library predicate `isspace` used by `strtol` is missing
from the repository; in the "C" locale it accepts the space and the five control
characters `\t`, `\n`, `\v`, `\f`, `\r` (codes 9 to 13). -/
def isspace (c : Char) : Bool :=
  c.toNat = 32 || (9 ≤ c.toNat && c.toNat ≤ 13)

/-- Modelled from the spec: the digit values of `strtol`, which is missing from the
repository: `0`..`9` are 0..9, letters of either case are 10..35, and every other character
is 36, a digit in no base. -/
def digitVal (c : Char) : Nat :=
  if 48 ≤ c.toNat ∧ c.toNat ≤ 57 then c.toNat - 48
  else if 97 ≤ c.toNat ∧ c.toNat ≤ 122 then c.toNat - 87
  else if 65 ≤ c.toNat ∧ c.toNat ≤ 90 then c.toNat - 55
  else 36

/-- Modelled from the spec: the text that the missing library function `strtol` looks at
after the leading white space. -/
def skipSpace (cs : List Char) : List Char :=
  cs.dropWhile isspace

/-- Modelled from the spec: the text that the missing library function `strtol` looks at
after an optional sign. -/
def skipSign (cs : List Char) : List Char :=
  if cs.head? = some '-' ∨ cs.head? = some '+' then cs.tail else cs

/-- Modelled from the spec: whether the text starts with the `0x` or `0X` that the missing
library function `strtol` skips in base 16, followed by a hexadecimal digit. -/
def startsWith0x : List Char → Bool
  | '0' :: x :: d :: _ => (x = 'x' || x = 'X') && digitVal d < 16
  | _ => false

/-- Modelled from the spec: the parsing strategy that the specification attributes to the
source is the C library function `long strtol(const char *nptr, char **endptr, int base)`
called with `endptr == NULL`; the function is missing from the repository and is modelled
as ISO C (7.22.1.4) defines it: leading white space is skipped, then
an optional sign, then for base 16 (or 0) an optional `0x`/`0X`, then the longest run of
digits of the base is converted; with no digit the result is 0, and a value outside the
range of `long` is replaced by `LONG_MAX` or `LONG_MIN = -LONG_MAX - 1`. The library is not
part of the repository; the platform constant `LONG_MAX` is a parameter. -/
def strtol (LONG_MAX : Nat) (nptr : String) (base : Nat) : Int :=
  let s := skipSpace nptr.data
  let negative := s.head? = some '-'
  let s := skipSign s
  let radix :=
    if base = 0 then (if startsWith0x s then 16 else if s.head? = some '0' then 8 else 10)
    else base
  let s := if (base = 0 ∨ base = 16) ∧ startsWith0x s then s.drop 2 else s
  if radix < 2 ∨ 36 < radix then 0
  else
    let digits := s.takeWhile (fun c => digitVal c < radix)
    let v : Int := digits.foldl (fun acc c => acc * radix + digitVal c) 0
    if negative then max (-v) (-(LONG_MAX : Int) - 1) else min v LONG_MAX

/-- The byte that `main` stores for one argument,
`custom_data[i - 1] = strtol(argv[i], NULL, 16)`: the `long` converted to `uint8_t`. -/
def custom_byte (conv : String → Nat → Int) (arg : String) : Nat :=
  (conv arg 16 % 256).toNat

/-- A valid hexadecimal string: one or more hexadecimal digits and nothing else. -/
def isHexString (tok : String) : Bool :=
  !tok.data.isEmpty && tok.data.all (fun c => digitVal c < 16)

/-- Whether a hexadecimal digit follows the optional leading white space and sign of a
token, that is, whether `strtol` in base 16 finds anything to convert. -/
def startsWithHexDigit (tok : String) : Bool :=
  match skipSign (skipSpace tok.data) with
  | c :: _ => digitVal c < 16
  | [] => false

/-! ## Bit-level lemmas about the register update -/

theorem shl_mod_xor (x y k : Nat) :
    ((x ^^^ y) <<< k) % 65536 = ((x <<< k) % 65536) ^^^ ((y <<< k) % 65536) := by
  have h : (65536 : Nat) = 2 ^ 16 := by norm_num
  rw [h]
  apply Nat.eq_of_testBit_eq
  intro i
  simp only [Nat.testBit_mod_two_pow, Nat.testBit_xor, Nat.testBit_shiftLeft]
  by_cases h1 : i < 16 <;> by_cases h2 : k ≤ i <;> simp [h1, h2]

/-- A round is linear over XOR. -/
theorem bitRound_xor (x y : Nat) : bitRound (x ^^^ y) = bitRound x ^^^ bitRound y := by
  unfold bitRound
  rw [Nat.testBit_xor, shl_mod_xor]
  generalize (x <<< 1) % 65536 = a
  generalize (y <<< 1) % 65536 = b
  cases x.testBit 15 <;> cases y.testBit 15
  · simp
  · simp [Nat.xor_assoc]
  · simp only [Bool.true_xor, Bool.not_false, if_true, Bool.false_eq_true, if_false]
    ac_rfl
  · simp only [Bool.true_xor, Bool.not_true, if_true, Bool.false_eq_true, if_false]
    have : (a ^^^ 4129) ^^^ (b ^^^ 4129) = (a ^^^ b) ^^^ (4129 ^^^ 4129) := by ac_rfl
    rw [this, Nat.xor_self, Nat.xor_zero]

theorem bitRound_iter_xor (n x y : Nat) :
    bitRound^[n] (x ^^^ y) = bitRound^[n] x ^^^ bitRound^[n] y := by
  induction n generalizing x y with
  | zero => rfl
  | succ n ih => simp only [Function.iterate_succ, Function.comp_apply, bitRound_xor, ih]

set_option maxRecDepth 100000 in
/-- Every table entry is the eight-round image of its index placed in the high byte. -/
theorem table_eq_gen : ∀ i, i < 256 → CCITTCRCTable.getD i 0 = tableGen i := by
  decide

set_option maxRecDepth 100000 in
theorem table_get_eq_gen : ∀ i, i < 256 → CCITTCRCTable[i]? = some (tableGen i) := by
  decide

set_option maxRecDepth 100000 in
theorem table_length : CCITTCRCTable.length = 256 := by
  decide

set_option maxRecDepth 100000 in
theorem table_entries :
    CCITTCRCTable[0]? = some 0x0000 ∧ CCITTCRCTable[1]? = some 0x1021 ∧
    CCITTCRCTable[0xFF]? = some 0x1ef0 := by
  decide

set_option maxRecDepth 100000 in
theorem table_lt : ∀ i, i < 256 → CCITTCRCTable.getD i 0 < 65536 := by
  decide

set_option maxRecDepth 100000 in
/-- Eight rounds move a register whose high byte is clear into the high byte unchanged. -/
theorem bitRound_low : ∀ lo, lo < 256 → bitRound^[8] lo = lo <<< 8 := by
  decide

theorem Temp_eq (c b : Nat) (hc : c < 65536) (hb : b < 256) :
    Temp c b = (c >>> 8) ^^^ b ∧ (c >>> 8) ^^^ b < 256 := by
  have h1 : c >>> 8 < 2 ^ 8 := by
    rw [Nat.shiftRight_eq_div_pow]; omega
  have h2 : (c >>> 8) ^^^ b < 2 ^ 8 := Nat.xor_lt_two_pow h1 (by simpa using hb)
  have h3 : (c >>> 8) ^^^ b < 256 := by simpa using h2
  refine ⟨?_, h3⟩
  unfold Temp
  rw [Nat.mod_eq_of_lt (by omega), show (0x00FF : Nat) = 2 ^ 8 - 1 by norm_num,
    Nat.and_pow_two_sub_one_eq_mod, Nat.mod_eq_of_lt h2]

theorem reg_split (c b : Nat) :
    c ^^^ (b <<< 8) = (((c >>> 8) ^^^ b) <<< 8) ^^^ (c % 256) := by
  rw [show (256 : Nat) = 2 ^ 8 by norm_num]
  apply Nat.eq_of_testBit_eq
  intro i
  simp only [Nat.testBit_xor, Nat.testBit_shiftLeft, Nat.testBit_shiftRight,
    Nat.testBit_mod_two_pow]
  by_cases h : i < 8
  · have h' : ¬ (8 ≤ i) := by omega
    simp [h, h']
  · have h' : 8 ≤ i := by omega
    have e : 8 + (i - 8) = i := by omega
    simp [h, h', e]

theorem store_split (T c : Nat) (hT : T < 65536) :
    (T ^^^ (c <<< 8)) % 65536 = T ^^^ ((c % 256) <<< 8) := by
  rw [show (256 : Nat) = 2 ^ 8 by norm_num, show (65536 : Nat) = 2 ^ 16 by norm_num] at *
  apply Nat.eq_of_testBit_eq
  intro i
  simp only [Nat.testBit_xor, Nat.testBit_shiftLeft, Nat.testBit_mod_two_pow]
  by_cases h : i < 16
  · by_cases h8 : 8 ≤ i
    · have : i - 8 < 8 := by omega
      simp [h, h8, this]
    · simp [h, h8]
  · have hTi : T.testBit i = false :=
      Nat.testBit_lt_two_pow
        (Nat.lt_of_lt_of_le hT (Nat.pow_le_pow_right (by norm_num) (by omega)))
    have h8 : 8 ≤ i := by omega
    have : ¬ (i - 8 < 8) := by omega
    simp [h, hTi, h8, this]

/-- The table-driven loop body and the bit-by-bit byte update agree on 16-bit registers. -/
theorem crcStep_eq_bitByte (c b : Nat) (hc : c < 65536) (hb : b < 256) :
    crcStep c b = bitByte c b := by
  obtain ⟨hT, hlt⟩ := Temp_eq c b hc hb
  unfold crcStep bitByte
  rw [hT, store_split _ _ (table_lt _ hlt), reg_split c b, bitRound_iter_xor,
    bitRound_low (c % 256) (Nat.mod_lt _ (by norm_num)), table_eq_gen _ hlt]
  rfl

theorem crcStep_lt (c b : Nat) : crcStep c b < 65536 :=
  Nat.mod_lt _ (by norm_num)

theorem foldl_crcStep_eq (l : List Nat) (hl : ∀ b ∈ l, b < 256) (c : Nat) (hc : c < 65536) :
    l.foldl crcStep c = l.foldl bitByte c := by
  induction l generalizing c with
  | nil => rfl
  | cons b t ih =>
    simp only [List.foldl_cons]
    rw [← crcStep_eq_bitByte c b hc (hl b (List.mem_cons_self _ _))]
    exact ih (fun x hx => hl x (List.mem_cons_of_mem _ hx)) _ (crcStep_lt c b)

/-- The register carried along with the recorded table indices is the register of the loop. -/
theorem lookups_fold_fst (l : List Nat) (st : Nat × List Nat) :
    (l.foldl (fun (st : Nat × List Nat) b =>
        (crcStep st.1 b, st.2 ++ [Temp st.1 b])) st).1 = l.foldl crcStep st.1 := by
  induction l generalizing st with
  | nil => rfl
  | cons b t ih => simp only [List.foldl_cons]; rw [ih]

/-! ## Lemmas about the printed frame -/

theorem foldl_emit (sep : String) (l : List Nat) (acc : List Emit) :
    l.foldl (fun out h => out ++ [(h, sep)]) acc = acc ++ l.map (fun h => (h, sep)) := by
  induction l generalizing acc with
  | nil => simp
  | cons a t ih => simp [ih]

/-- The conversions of `print_command`: all but the last are followed by a space. -/
theorem print_command_eq (data : List Nat) (len : Nat) :
    print_command data len =
      ([0x02, ((len + 2) % 65536) &&& 0xFF, (((len + 2) % 65536) >>> 8) &&& 0xFF]
        ++ [GetCCITTCRC [0x02, ((len + 2) % 65536) &&& 0xFF,
              (((len + 2) % 65536) >>> 8) &&& 0xFF] 3 &&& 0xFF,
            (GetCCITTCRC [0x02, ((len + 2) % 65536) &&& 0xFF,
              (((len + 2) % 65536) >>> 8) &&& 0xFF] 3 >>> 8) &&& 0xFF]
        ++ data.take len
        ++ [GetCCITTCRC data len &&& 0xFF]).map (fun b => ((b, " ") : Emit))
      ++ [((GetCCITTCRC data len >>> 8) &&& 0xFF, "\n")] := by
  simp [print_command, foldl_emit, List.map_append]

theorem frame_eq (data : List Nat) (len : Nat) :
    frame data len =
      [0x02, ((len + 2) % 65536) &&& 0xFF, (((len + 2) % 65536) >>> 8) &&& 0xFF]
        ++ [GetCCITTCRC [0x02, ((len + 2) % 65536) &&& 0xFF,
              (((len + 2) % 65536) >>> 8) &&& 0xFF] 3 &&& 0xFF,
            (GetCCITTCRC [0x02, ((len + 2) % 65536) &&& 0xFF,
              (((len + 2) % 65536) >>> 8) &&& 0xFF] 3 >>> 8) &&& 0xFF]
        ++ data.take len
        ++ [GetCCITTCRC data len &&& 0xFF, (GetCCITTCRC data len >>> 8) &&& 0xFF] := by
  simp [frame, print_command, foldl_emit, List.map_append, Function.comp_def]

theorem frame_length (data : List Nat) (len : Nat) :
    (frame data len).length = min len data.length + 7 := by
  rw [frame_eq]
  simp only [List.length_append, List.length_cons, List.length_nil, List.length_take]
  omega

theorem and_255_lt (x : Nat) : x &&& 0xFF < 256 :=
  Nat.and_lt_two_pow x (show (0xFF : Nat) < 2 ^ 8 by norm_num)

/-! ## Lemmas about the text on standard output -/

set_option maxRecDepth 100000 in
/-- On a byte, `%02X` writes exactly two uppercase hexadecimal digits. -/
theorem fmt02X_byte : ∀ b, b < 256 → fmt02X b = twoHexDigits b := by
  decide

theorem stdoutText_go (bs : List Nat) (last : Nat) (acc : String) :
    (bs.map (fun b => ((b, " ") : Emit)) ++ [(last, "\n")]).foldl
        (fun s (e : Emit) => s ++ fmt02X e.1 ++ e.2) (acc ++ " ")
      = String.intercalate.go acc " " ((bs ++ [last]).map fmt02X) ++ "\n" := by
  induction bs generalizing acc with
  | nil => simp [String.intercalate.go]
  | cons b t ih =>
    simp only [List.map_cons, List.cons_append, List.foldl_cons, String.intercalate.go]
    exact ih (acc ++ " " ++ fmt02X b)

theorem stdoutText_line (bs : List Nat) (last : Nat) :
    stdoutText (bs.map (fun b => ((b, " ") : Emit)) ++ [(last, "\n")])
      = String.intercalate " " ((bs ++ [last]).map fmt02X) ++ "\n" := by
  unfold stdoutText
  cases bs with
  | nil => simp [String.intercalate, String.intercalate.go]
  | cons b t =>
    simp only [List.map_cons, List.cons_append, List.foldl_cons, String.intercalate]
    have h := stdoutText_go t last (fmt02X b)
    simpa using h

theorem foldl_text_acc (l : List Emit) (acc : String) :
    l.foldl (fun s (e : Emit) => s ++ fmt02X e.1 ++ e.2) acc
      = acc ++ l.foldl (fun s (e : Emit) => s ++ fmt02X e.1 ++ e.2) "" := by
  induction l generalizing acc with
  | nil => simp
  | cons e t ih =>
    simp only [List.foldl_cons]
    rw [ih (acc ++ fmt02X e.1 ++ e.2), ih ("" ++ fmt02X e.1 ++ e.2)]
    simp [String.append_assoc]

theorem stdoutText_cons (e : Emit) (l : List Emit) :
    stdoutText (e :: l) = fmt02X e.1 ++ e.2 ++ stdoutText l := by
  unfold stdoutText
  rw [List.foldl_cons, foldl_text_acc]
  simp

theorem stdoutText_marker (l : List Emit) :
    stdoutText ((0x02, " ") :: l) = "02 " ++ stdoutText l := by
  rw [stdoutText_cons]
  show fmt02X 2 ++ " " ++ stdoutText l = "02 " ++ stdoutText l
  rw [show fmt02X 2 ++ " " = "02 " by decide]

/-- The text of every frame starts with the start-of-message marker `02`. -/
theorem stdoutText_head (data : List Nat) (len : Nat) :
    ∃ rest : String, stdoutText (print_command data len) = "02 " ++ rest := by
  rw [print_command_eq]
  simp only [List.cons_append, List.map_cons]
  exact ⟨_, stdoutText_marker _⟩

/-- Every byte of the frame of a byte buffer is a byte. -/
theorem frame_bytes_lt (data : List Nat) (len : Nat) (hb : ∀ b ∈ data, b < 256) :
    ∀ b ∈ frame data len, b < 256 := by
  intro b hmem
  rw [frame_eq] at hmem
  simp only [List.mem_append, List.mem_cons, List.mem_singleton, List.not_mem_nil,
    or_false] at hmem
  rcases hmem with ((((h | h | h) | (h | h)) | h) | (h | h))
  · omega
  · rw [h]; exact and_255_lt _
  · rw [h]; exact and_255_lt _
  · rw [h]; exact and_255_lt _
  · rw [h]; exact and_255_lt _
  · exact hb b (List.mem_of_mem_take h)
  · rw [h]; exact and_255_lt _
  · rw [h]; exact and_255_lt _

/-- The text printed by `print_command` is the hexadecimal line of its frame. -/
theorem stdoutText_print_command (data : List Nat) (len : Nat) (hb : ∀ b ∈ data, b < 256) :
    stdoutText (print_command data len) = hexLine (frame data len) := by
  have hbytes := frame_bytes_lt data len hb
  have hmap : (frame data len).map fmt02X = (frame data len).map twoHexDigits :=
    List.map_congr_left (fun b hmem => fmt02X_byte b (hbytes b hmem))
  rw [print_command_eq, stdoutText_line, hexLine, ← hmap, frame_eq]
  simp only [List.append_assoc, List.cons_append, List.nil_append]

/-! ## Frame layout -/

/-- C1: for every payload of length `N` with `N + 2 ≤ 65535`, the byte sequence emitted by
`print_command` is the header `[0x02, (N+2) & 0xFF, ((N+2) >> 8) & 0xFF]`, then the header
CRC of that header low byte first, then the payload, then the payload CRC low byte first. -/
theorem print_command_frame_layout (payload : List Nat)
    (h : payload.length + 2 ≤ 65535) :
    frame payload payload.length =
      [0x02, (payload.length + 2) &&& 0xFF, ((payload.length + 2) >>> 8) &&& 0xFF]
        ++ [GetCCITTCRC [0x02, (payload.length + 2) &&& 0xFF,
              ((payload.length + 2) >>> 8) &&& 0xFF] 3 &&& 0xFF,
            (GetCCITTCRC [0x02, (payload.length + 2) &&& 0xFF,
              ((payload.length + 2) >>> 8) &&& 0xFF] 3 >>> 8) &&& 0xFF]
        ++ payload
        ++ [GetCCITTCRC payload payload.length &&& 0xFF,
            (GetCCITTCRC payload payload.length >>> 8) &&& 0xFF] := by
  have hmod : (payload.length + 2) % 65536 = payload.length + 2 :=
    Nat.mod_eq_of_lt (by omega)
  rw [frame_eq, hmod, List.take_length]

/-- Witness for C1 on the six-byte "read UID into memory" command of the source. -/
theorem print_command_frame_layout_witness :
    [0x01, 0x01, 0x00, 0x01, 0x00, 0x01].length + 2 ≤ 65535 ∧
    frame [0x01, 0x01, 0x00, 0x01, 0x00, 0x01] 6 =
      [0x02, 0x08, 0x00] ++ [0x55, 0x2B] ++ [0x01, 0x01, 0x00, 0x01, 0x00, 0x01]
        ++ [0xF0, 0xC6] :=
  ⟨by decide,
    (print_command_frame_layout [0x01, 0x01, 0x00, 0x01, 0x00, 0x01] (by decide)).trans
      (by decide)⟩

/-! ## The CRC engine -/

/-- C2: on every non-empty byte sequence the table-driven `GetCCITTCRC` returns the value of
the bit-by-bit CRC-CCITT reference (polynomial `0x1021`, initial register `0xFFFF`,
most-significant bit first, no reflection, no final XOR). -/
theorem GetCCITTCRC_eq_crcBitwise (data : List Nat) (hne : data ≠ [])
    (hbytes : ∀ b ∈ data, b < 256) :
    GetCCITTCRC data data.length = crcBitwise data := by
  unfold GetCCITTCRC crcBitwise
  have hlen : data.length ≠ 0 := by simpa using hne
  rw [if_neg hlen, List.take_length]
  exact foldl_crcStep_eq data hbytes _ (by norm_num)

/-- Witness for C2 on the header of the one-byte dummy command. -/
theorem GetCCITTCRC_eq_crcBitwise_witness :
    [0x02, 0x03, 0x00] ≠ [] ∧ (∀ b ∈ [0x02, 0x03, 0x00], b < 256) ∧
    GetCCITTCRC [0x02, 0x03, 0x00] [0x02, 0x03, 0x00].length = crcBitwise [0x02, 0x03, 0x00] :=
  ⟨by decide, by decide, GetCCITTCRC_eq_crcBitwise [0x02, 0x03, 0x00] (by decide) (by decide)⟩

/-- C3: for every index `i` below 256, `CCITTCRCTable[i]` is the value of the standard
bit-shifting table generation for polynomial `0x1021` (eight rounds from `i << 8`); the table
has 256 entries, entry 0 is `0x0000`, entry 1 is `0x1021` and entry `0xFF` is `0x1ef0`. -/
theorem CCITTCRCTable_generated (i : Nat) (h : i < 256) :
    CCITTCRCTable[i]? = some (tableGen i) ∧
    CCITTCRCTable.length = 256 ∧
    CCITTCRCTable[0]? = some 0x0000 ∧
    CCITTCRCTable[1]? = some 0x1021 ∧
    CCITTCRCTable[0xFF]? = some 0x1ef0 :=
  ⟨table_get_eq_gen i h, table_length, table_entries⟩

/-- Witness for C3 at the last index. -/
theorem CCITTCRCTable_generated_witness :
    (0xFF : Nat) < 256 ∧ CCITTCRCTable[0xFF]? = some (tableGen 0xFF) ∧
    tableGen 0xFF = 0x1ef0 :=
  ⟨by decide, (CCITTCRCTable_generated 0xFF (by decide)).1, by decide⟩

/-- C4: with `Size == 0` the function `GetCCITTCRC` returns `0x0000`, which is not the seed
`0xFFFF`, and reads no table entry. -/
theorem GetCCITTCRC_size_zero (Data : List Nat) :
    GetCCITTCRC Data 0 = 0x0000 ∧ GetCCITTCRC Data 0 ≠ 0xFFFF ∧
    GetCCITTCRC_lookups Data 0 = [] := by
  refine ⟨rfl, ?_, rfl⟩
  show (0 : Nat) ≠ 0xFFFF
  decide

/-! ## Frame length and length field -/

/-- C5: for a payload of length `N` that `print_command` accepts (`N ≤ 65535`, the range of
its `uint16_t` parameter), the emitted frame has exactly `N + 7` bytes. -/
theorem frame_length_eq (payload : List Nat) (_h : payload.length ≤ 65535) :
    (frame payload payload.length).length = payload.length + 7 := by
  rw [frame_length, Nat.min_self]

/-- Witness for C5 on the five-byte "output UID from memory" command of the source. -/
theorem frame_length_eq_witness :
    [0x02, 0x14, 0x00, 0x0A, 0x00].length ≤ 65535 ∧
    (frame [0x02, 0x14, 0x00, 0x0A, 0x00] [0x02, 0x14, 0x00, 0x0A, 0x00].length).length
      = [0x02, 0x14, 0x00, 0x0A, 0x00].length + 7 :=
  ⟨by decide, frame_length_eq [0x02, 0x14, 0x00, 0x0A, 0x00] (by decide)⟩

/-- C6: for every payload of length `N` with `N + 2 ≤ 65535`, bytes 1 and 2 of the emitted
frame form, low byte first, the 16-bit value `N + 2`. -/
theorem frame_length_field (payload : List Nat) (h : payload.length + 2 ≤ 65535) :
    ∃ lo hi, (frame payload payload.length)[1]? = some lo ∧
      (frame payload payload.length)[2]? = some hi ∧
      lo < 256 ∧ hi < 256 ∧ lo + 256 * hi = payload.length + 2 := by
  have hmod : (payload.length + 2) % 65536 = payload.length + 2 :=
    Nat.mod_eq_of_lt (by omega)
  refine ⟨(payload.length + 2) &&& 0xFF, ((payload.length + 2) >>> 8) &&& 0xFF, ?_, ?_,
    and_255_lt _, and_255_lt _, ?_⟩
  · rw [frame_eq, hmod]; rfl
  · rw [frame_eq, hmod]; rfl
  · rw [show (0xFF : Nat) = 2 ^ 8 - 1 by norm_num, Nat.and_pow_two_sub_one_eq_mod,
      Nat.and_pow_two_sub_one_eq_mod, Nat.shiftRight_eq_div_pow]
    omega

/-- Witness for C6 on a payload of 258 zero bytes, whose length field is `04 01`. -/
theorem frame_length_field_witness :
    (List.replicate 258 0).length + 2 ≤ 65535 ∧
    ∃ lo hi, (frame (List.replicate 258 0) (List.replicate 258 0).length)[1]? = some lo ∧
      (frame (List.replicate 258 0) (List.replicate 258 0).length)[2]? = some hi ∧
      lo < 256 ∧ hi < 256 ∧ lo + 256 * hi = (List.replicate 258 0).length + 2 :=
  ⟨by rw [List.length_replicate]; decide,
    frame_length_field (List.replicate 258 0) (by rw [List.length_replicate]; decide)⟩

/-! ## The length boundary -/

/-- Counterexample to C7: for a payload of 65534 bytes `print_command` raises no
PayloadTooLarge error; it emits a frame of 65541 bytes. -/
theorem print_command_65534_emits :
    print_command (List.replicate 65534 0) 65534 ≠ [] ∧
    (frame (List.replicate 65534 0) 65534).length = 65541 := by
  have hlen : (frame (List.replicate 65534 0) 65534).length = 65541 := by
    rw [frame_length, List.length_replicate, Nat.min_self]
  refine ⟨?_, hlen⟩
  intro hnil
  rw [frame, hnil] at hlen
  exact absurd hlen (by decide)

/-- C7 (amended): a payload of 65533 bytes yields a frame of 65540 bytes whose length field
is `FF FF`; a payload of 65534 bytes is not rejected, `print_command` still emits a frame, of
65541 bytes, and `main` called with 65534 payload arguments exits with status 0. -/
theorem print_command_length_boundary (p q : List Nat) (strtol : String → Nat → Int)
    (argv0 : String) (args : List String)
    (hp : p.length = 65533) (hq : q.length = 65534) (ha : args.length = 65534) :
    (frame p p.length).length = 65540 ∧
    (frame p p.length).take 3 = [0x02, 0xFF, 0xFF] ∧
    print_command q q.length ≠ [] ∧
    (frame q q.length).length = 65541 ∧
    (main strtol argv0 args).status = 0 := by
  have hqlen : (frame q q.length).length = 65541 := by
    rw [frame_length, Nat.min_self, hq]
  refine ⟨?_, ?_, ?_, hqlen, ?_⟩
  · rw [frame_length, Nat.min_self, hp]
  · rw [frame_eq, hp]; rfl
  · intro hnil
    rw [frame, hnil] at hqlen
    exact absurd hqlen (by decide)
  · have hargc : ¬ (args.length + 1 < 2) := by omega
    simp only [main, if_neg hargc]

/-- Witness for C7 (amended) on all-zero payloads and 65534 arguments `00`. -/
theorem print_command_length_boundary_witness :
    (List.replicate 65533 0).length = 65533 ∧
    (List.replicate 65534 0).length = 65534 ∧
    (List.replicate 65534 "00").length = 65534 ∧
    (frame (List.replicate 65533 0) (List.replicate 65533 0).length).length = 65540 ∧
    (frame (List.replicate 65533 0) (List.replicate 65533 0).length).take 3
      = [0x02, 0xFF, 0xFF] ∧
    print_command (List.replicate 65534 0) (List.replicate 65534 0).length ≠ [] ∧
    (frame (List.replicate 65534 0) (List.replicate 65534 0).length).length = 65541 ∧
    (main (fun _ _ => 0) "command" (List.replicate 65534 "00")).status = 0 :=
  ⟨List.length_replicate _ _, List.length_replicate _ _, List.length_replicate _ _,
    print_command_length_boundary (List.replicate 65533 0) (List.replicate 65534 0)
      (fun _ _ => 0) "command" (List.replicate 65534 "00")
      (List.length_replicate _ _) (List.length_replicate _ _) (List.length_replicate _ _)⟩

/-! ## The command-line program -/

/-- C8: when `main` is invoked with no payload argument (`argc < 2`) it writes only the usage
message to standard output and returns 1; that text is not the text of any frame, so no frame
byte is printed. -/
theorem main_usage (strtol : String → Nat → Int) (argv0 : String) (args : List String)
    (h : args.length + 1 < 2) :
    main strtol argv0 args
      = { stdout := "Usage: " ++ argv0 ++ " <command> <data>\n", status := 1 } ∧
    ∀ (data : List Nat) (len : Nat),
      (main strtol argv0 args).stdout ≠ stdoutText (print_command data len) := by
  have hmain : main strtol argv0 args
      = { stdout := "Usage: " ++ argv0 ++ " <command> <data>\n", status := 1 } := by
    simp only [main, if_pos h]
  refine ⟨hmain, ?_⟩
  intro data len heq
  obtain ⟨rest, hrest⟩ := stdoutText_head data len
  rw [hmain, hrest] at heq
  have hd := congrArg String.data heq
  simp [String.data_append] at hd

/-- Witness for C8: the program run without arguments. -/
theorem main_usage_witness :
    ([] : List String).length + 1 < 2 ∧
    main (fun _ _ => 0) "command" []
      = { stdout := "Usage: command <command> <data>\n", status := 1 } :=
  ⟨by decide, (main_usage (fun _ _ => 0) "command" [] (by decide)).1⟩

/-- C9: when `main` is invoked with between 1 and 65533 payload arguments, the text on
standard output is the frame built from the parsed bytes (header, header CRC, the bytes
`strtol(argv[i], NULL, 16)` stored as `uint8_t`, payload CRC), each byte as two uppercase
hexadecimal digits, consecutive bytes separated by one space, no trailing space, one
terminating newline, and the exit status is 0. -/
theorem main_prints_frame (strtol : String → Nat → Int) (argv0 : String) (args : List String)
    (h1 : 1 ≤ args.length) (h2 : args.length ≤ 65533) :
    main strtol argv0 args =
      { stdout := hexLine
          ([0x02, (args.length + 2) &&& 0xFF, ((args.length + 2) >>> 8) &&& 0xFF]
            ++ [GetCCITTCRC [0x02, (args.length + 2) &&& 0xFF,
                  ((args.length + 2) >>> 8) &&& 0xFF] 3 &&& 0xFF,
                (GetCCITTCRC [0x02, (args.length + 2) &&& 0xFF,
                  ((args.length + 2) >>> 8) &&& 0xFF] 3 >>> 8) &&& 0xFF]
            ++ args.map (fun a => (strtol a 16 % 256).toNat)
            ++ [GetCCITTCRC (args.map (fun a => (strtol a 16 % 256).toNat))
                  args.length &&& 0xFF,
                (GetCCITTCRC (args.map (fun a => (strtol a 16 % 256).toNat))
                  args.length >>> 8) &&& 0xFF]),
        status := 0 } := by
  have hargc : ¬ (args.length + 1 < 2) := by omega
  have hN : (args.map (fun a => (strtol a 16 % 256).toNat)).length = args.length :=
    List.length_map _ _
  have hlen : (args.length + 1 - 1) % 65536 = args.length := by
    rw [Nat.add_sub_cancel]; exact Nat.mod_eq_of_lt (by omega)
  have hmod : (args.length + 2) % 65536 = args.length + 2 := Nat.mod_eq_of_lt (by omega)
  have hb : ∀ b ∈ args.map (fun a => (strtol a 16 % 256).toNat), b < 256 := by
    intro b hmem
    obtain ⟨a, _, rfl⟩ := List.mem_map.mp hmem
    omega
  have htake : (args.map (fun a => (strtol a 16 % 256).toNat)).take args.length
      = args.map (fun a => (strtol a 16 % 256).toNat) := by
    rw [← hN, List.take_length]
  simp only [main, if_neg hargc]
  rw [hlen, stdoutText_print_command _ _ hb, frame_eq, hmod, htake]

/-- Witness for C9: one argument that parses to the byte `0x01`. -/
theorem main_prints_frame_witness :
    1 ≤ ["01"].length ∧ ["01"].length ≤ 65533 ∧
    main (fun _ _ => 1) "command" ["01"]
      = { stdout := "02 03 00 AF F7 01 D1 F1\n", status := 0 } :=
  ⟨by decide, by decide,
    (main_prints_frame (fun _ _ => 1) "command" ["01"] (by decide) (by decide)).trans
      (by decide)⟩

/-- C10: for the payload `[0x00]` the header is `02 03 00`, the header CRC is `0xF7AF`, the
payload CRC is `0xE1F0`, and the frame is the eight bytes `02 03 00 AF F7 00 F0 E1`, printed
as that line. -/
theorem dummy_command_frame :
    (frame [0x00] 1).take 3 = [0x02, 0x03, 0x00] ∧
    GetCCITTCRC [0x02, 0x03, 0x00] 3 = 0xF7AF ∧
    GetCCITTCRC [0x00] 1 = 0xE1F0 ∧
    frame [0x00] 1 = [0x02, 0x03, 0x00, 0xAF, 0xF7, 0x00, 0xF0, 0xE1] ∧
    stdoutText (print_command [0x00] 1) = "02 03 00 AF F7 00 F0 E1\n" := by
  decide

/-! ## Injectivity of the register update -/

theorem bitRound_lt (r : Nat) : bitRound r < 65536 := by
  have hs : (r <<< 1) % 65536 < 2 ^ 16 := Nat.mod_lt _ (by norm_num)
  unfold bitRound
  split
  · exact Nat.xor_lt_two_pow hs (by norm_num)
  · exact hs

theorem bitRound_iter_lt (n r : Nat) (hr : r < 65536) : bitRound^[n] r < 65536 := by
  induction n generalizing r with
  | zero => exact hr
  | succ n ih => rw [Function.iterate_succ, Function.comp_apply]; exact ih _ (bitRound_lt r)

/-- A round sends only the zero register to zero. -/
theorem bitRound_eq_zero (z : Nat) (hz : z < 65536) (h : bitRound z = 0) : z = 0 := by
  unfold bitRound at h
  rw [Nat.shiftLeft_eq] at h
  by_cases hb : z.testBit 15
  · rw [if_pos hb, Nat.xor_eq_zero] at h
    omega
  · rw [if_neg hb] at h
    have hlt : z < 2 ^ 15 := by
      apply Nat.lt_pow_two_of_testBit
      intro i hi
      by_cases h15 : i = 15
      · rw [h15]; simpa using hb
      · exact Nat.testBit_lt_two_pow
          (Nat.lt_of_lt_of_le (show z < 2 ^ 16 from hz)
            (Nat.pow_le_pow_right (by norm_num) (by omega)))
    omega

theorem bitRound_inj (x y : Nat) (hx : x < 65536) (hy : y < 65536)
    (h : bitRound x = bitRound y) : x = y := by
  have hxy : x ^^^ y < 2 ^ 16 := Nat.xor_lt_two_pow hx hy
  have hz : bitRound (x ^^^ y) = 0 := by
    rw [bitRound_xor, h, Nat.xor_self]
  exact Nat.xor_eq_zero.mp (bitRound_eq_zero _ hxy hz)

theorem bitRound_iter_inj (n x y : Nat) (hx : x < 65536) (hy : y < 65536)
    (h : bitRound^[n] x = bitRound^[n] y) : x = y := by
  induction n generalizing x y with
  | zero => exact h
  | succ n ih =>
    rw [Function.iterate_succ, Function.comp_apply, Function.comp_apply] at h
    exact bitRound_inj x y hx hy (ih _ _ (bitRound_lt x) (bitRound_lt y) h)

theorem byte_shl_lt (b : Nat) (hb : b < 256) : b <<< 8 < 65536 := by
  rw [Nat.shiftLeft_eq]; omega

theorem reg_xor_lt (c b : Nat) (hc : c < 65536) (hb : b < 256) : c ^^^ (b <<< 8) < 65536 :=
  Nat.xor_lt_two_pow (n := 16) hc (byte_shl_lt b hb)

/-- The loop body is injective in the register, for a fixed data byte. -/
theorem crcStep_inj_reg (c d b : Nat) (hc : c < 65536) (hd : d < 65536) (hb : b < 256)
    (h : crcStep c b = crcStep d b) : c = d := by
  rw [crcStep_eq_bitByte c b hc hb, crcStep_eq_bitByte d b hd hb] at h
  exact Nat.xor_left_inj.mp
    (bitRound_iter_inj 8 _ _ (reg_xor_lt c b hc hb) (reg_xor_lt d b hd hb) h)

/-- The loop body is injective in the data byte, for a fixed register. -/
theorem crcStep_inj_byte (c x y : Nat) (hc : c < 65536) (hx : x < 256) (hy : y < 256)
    (h : crcStep c x = crcStep c y) : x = y := by
  rw [crcStep_eq_bitByte c x hc hx, crcStep_eq_bitByte c y hc hy] at h
  have h2 : x <<< 8 = y <<< 8 := Nat.xor_right_inj.mp
    (bitRound_iter_inj 8 _ _ (reg_xor_lt c x hc hx) (reg_xor_lt c y hc hy) h)
  rw [Nat.shiftLeft_eq, Nat.shiftLeft_eq] at h2
  omega

theorem foldl_crcStep_lt (l : List Nat) (c : Nat) (hc : c < 65536) :
    l.foldl crcStep c < 65536 := by
  induction l generalizing c with
  | nil => exact hc
  | cons b t ih => exact ih _ (crcStep_lt c b)

theorem foldl_crcStep_inj (l : List Nat) (hl : ∀ b ∈ l, b < 256) (c d : Nat)
    (hc : c < 65536) (hd : d < 65536) (h : l.foldl crcStep c = l.foldl crcStep d) : c = d := by
  induction l generalizing c d with
  | nil => exact h
  | cons b t ih =>
    have hb := hl b (List.mem_cons_self _ _)
    exact crcStep_inj_reg c d b hc hd hb
      (ih (fun x hx => hl x (List.mem_cons_of_mem _ hx)) _ _ (crcStep_lt c b) (crcStep_lt d b) h)

/-- Two buffers that differ in one byte only have different checksums. -/
theorem crc_single_diff (pre suf : List Nat) (x y : Nat) (hxy : x ≠ y)
    (hx : x < 256) (hy : y < 256) (hsuf : ∀ b ∈ suf, b < 256) :
    GetCCITTCRC (pre ++ x :: suf) (pre ++ x :: suf).length
      ≠ GetCCITTCRC (pre ++ y :: suf) (pre ++ y :: suf).length := by
  intro h
  unfold GetCCITTCRC at h
  rw [if_neg (by simp), if_neg (by simp), List.take_length, List.take_length,
    List.foldl_append, List.foldl_append, List.foldl_cons, List.foldl_cons] at h
  have hc := foldl_crcStep_lt pre 0xFFFF (by norm_num)
  have h1 := foldl_crcStep_inj suf hsuf _ _ (crcStep_lt _ x) (crcStep_lt _ y) h
  exact hxy (crcStep_inj_byte _ x y hc hx hy h1)

theorem split_at (d : List Nat) (i : Nat) (hi : i < d.length) :
    d = d.take i ++ d[i] :: d.drop (i + 1) := by
  rw [← List.drop_eq_getElem_cons hi, List.take_append_drop]

theorem take_eq_of_same (d e : List Nat) (i : Nat)
    (hsame : ∀ j, j ≠ i → d[j]? = e[j]?) : d.take i = e.take i := by
  apply List.ext_getElem?
  intro n
  rw [List.getElem?_take, List.getElem?_take]
  split
  · exact hsame n (by omega)
  · rfl

theorem drop_eq_of_same (d e : List Nat) (i : Nat)
    (hsame : ∀ j, j ≠ i → d[j]? = e[j]?) : d.drop (i + 1) = e.drop (i + 1) := by
  apply List.ext_getElem?
  intro n
  rw [List.getElem?_drop, List.getElem?_drop]
  exact hsame _ (by omega)

/-- The table entries are pairwise distinct. -/
theorem table_inj (i j : Nat) (hi : i < 256) (hj : j < 256)
    (h : CCITTCRCTable[i]? = CCITTCRCTable[j]?) : i = j := by
  rw [table_get_eq_gen i hi, table_get_eq_gen j hj] at h
  have h2 : i <<< 8 = j <<< 8 :=
    bitRound_iter_inj 8 _ _ (byte_shl_lt i hi) (byte_shl_lt j hj) (Option.some.inj h)
  rw [Nat.shiftLeft_eq, Nat.shiftLeft_eq] at h2
  omega

/-! ## The residue of a buffer followed by its checksum -/

theorem xor_high_byte (c : Nat) (hc : c < 65536) :
    c ^^^ (((c >>> 8) &&& 0xFF) <<< 8) = c % 256 := by
  rw [show (256 : Nat) = 2 ^ 8 by norm_num, show (0xFF : Nat) = 2 ^ 8 - 1 by norm_num,
    Nat.and_pow_two_sub_one_eq_mod]
  apply Nat.eq_of_testBit_eq
  intro i
  simp only [Nat.testBit_xor, Nat.testBit_shiftLeft, Nat.testBit_shiftRight,
    Nat.testBit_mod_two_pow]
  by_cases h : i < 8
  · have h8 : ¬ (8 ≤ i) := by omega
    simp [h, h8]
  · have h8 : 8 ≤ i := by omega
    have e : 8 + (i - 8) = i := by omega
    by_cases h16 : i < 16
    · have : i - 8 < 8 := by omega
      simp [h, h8, e, this]
    · have hci : c.testBit i = false :=
        Nat.testBit_lt_two_pow
          (Nat.lt_of_lt_of_le (show c < 2 ^ 16 from hc)
            (Nat.pow_le_pow_right (by norm_num) (by omega)))
      have : ¬ (i - 8 < 8) := by omega
      simp [h, h8, hci, this]

/-- Feeding the register its own high byte and then its own low byte clears it. -/
theorem crcStep_residue (c : Nat) (hc : c < 65536) :
    crcStep (crcStep c ((c >>> 8) &&& 0xFF)) (c &&& 0xFF) = 0 := by
  have hhi : (c >>> 8) &&& 0xFF < 256 := and_255_lt _
  have hlo : c &&& 0xFF < 256 := and_255_lt _
  have h1 : crcStep c ((c >>> 8) &&& 0xFF) = (c % 256) <<< 8 := by
    rw [crcStep_eq_bitByte c _ hc hhi, bitByte, xor_high_byte c hc]
    exact bitRound_low _ (Nat.mod_lt _ (by norm_num))
  have hlo2 : c &&& 0xFF = c % 256 := by
    rw [show (0xFF : Nat) = 2 ^ 8 - 1 by norm_num, Nat.and_pow_two_sub_one_eq_mod]
  rw [crcStep_eq_bitByte _ _ (crcStep_lt _ _) hlo, h1, bitByte, hlo2, Nat.xor_self]
  rfl

/-! ## Bounds of the table reads -/

theorem Temp_lt (CRC b : Nat) : Temp CRC b < 256 :=
  and_255_lt _

theorem crcStep_checked_eq (CRC b : Nat) : crcStep_checked CRC b = some (crcStep CRC b) := by
  have hlt : Temp CRC b < CCITTCRCTable.length := by
    rw [table_length]; exact Temp_lt CRC b
  unfold crcStep_checked crcStep
  rw [List.getElem?_eq_getElem hlt, List.getD_eq_getElem _ _ hlt]
  rfl

/-- The checked loop over the indices `0 .. n-1` never fails inside the buffer and computes
the register of the unchecked loop. -/
theorem foldlM_checked_eq (Data : List Nat) (c n : Nat) (hn : n ≤ Data.length) :
    (List.range n).foldlM
        (fun CRC Index => (Data[Index]?).bind (fun d => crcStep_checked CRC d)) c
      = some ((Data.take n).foldl crcStep c) := by
  induction n with
  | zero => rfl
  | succ n ih =>
    have hlt : n < Data.length := by omega
    rw [List.range_succ, List.foldlM_append, ih (by omega), List.take_succ,
      List.foldl_append]
    simp [crcStep_checked_eq, List.getElem?_eq_getElem hlt]

theorem GetCCITTCRC_checked_eq (Data : List Nat) :
    GetCCITTCRC_checked Data Data.length = some (GetCCITTCRC Data Data.length) := by
  unfold GetCCITTCRC_checked GetCCITTCRC
  split
  · rfl
  · exact foldlM_checked_eq Data _ _ (Nat.le_refl _)

theorem GetCCITTCRC_lt (Data : List Nat) (Size : Nat) : GetCCITTCRC Data Size < 65536 := by
  unfold GetCCITTCRC
  split
  · norm_num
  · exact foldl_crcStep_lt _ _ (by norm_num)

theorem lookups_fold_lt (l : List Nat) (st : Nat × List Nat) (hst : ∀ i ∈ st.2, i < 256) :
    ∀ i ∈ (l.foldl (fun (st : Nat × List Nat) b =>
        (crcStep st.1 b, st.2 ++ [Temp st.1 b])) st).2, i < 256 := by
  induction l generalizing st with
  | nil => exact hst
  | cons b t ih =>
    rw [List.foldl_cons]
    apply ih
    intro i hi
    rcases List.mem_append.mp hi with h | h
    · exact hst i h
    · rw [List.mem_singleton.mp h]; exact Temp_lt _ _

theorem lookups_lt (Data : List Nat) (Size : Nat) :
    ∀ i ∈ GetCCITTCRC_lookups Data Size, i < 256 := by
  unfold GetCCITTCRC_lookups
  split
  · intro i hi; cases hi
  · exact lookups_fold_lt _ _ (by intro i hi; cases hi)

/-! ## Recovering the payload from a frame -/

theorem frame_payload (data : List Nat) (len : Nat) :
    ((frame data len).drop 5).take (min len data.length) = data.take len := by
  rw [frame_eq]
  simp only [List.cons_append, List.nil_append, List.drop_succ_cons, List.drop_zero,
    List.append_assoc]
  rw [List.take_append_of_le_length (by rw [List.length_take]), List.take_of_length_le]
  rw [List.length_take]

theorem frame_inj (p q : List Nat) (h : frame p p.length = frame q q.length) : p = q := by
  have hl := congrArg List.length h
  rw [frame_length, frame_length, Nat.min_self, Nat.min_self] at hl
  have hpq : p.length = q.length := by omega
  have hp := frame_payload p p.length
  have hq := frame_payload q q.length
  rw [Nat.min_self, List.take_length] at hp hq
  rw [← hp, ← hq, h, hpq]

/-! ## Lemmas about `strtol` in base 16 -/

theorem startsWith0x_head (a : Char) (t : List Char) (h : startsWith0x (a :: t) = true) :
    a = '0' := by
  unfold startsWith0x at h
  split at h
  · next x d rest heq => exact (List.cons.inj heq).1
  · exact absurd h (by decide)

/-- In base 16 `strtol` returns 0 when no hexadecimal digit follows the white space and
sign. -/
theorem strtol_no_digit (LONG_MAX : Nat) (tok : String)
    (h : ∀ c, (skipSign (skipSpace tok.data)).head? = some c → 16 ≤ digitVal c) :
    strtol LONG_MAX tok 16 = 0 := by
  simp only [strtol]
  generalize skipSign (skipSpace tok.data) = s at h
  have hpre : startsWith0x s = false := by
    cases s with
    | nil => rfl
    | cons a t =>
      have ha := h a rfl
      cases hp : startsWith0x (a :: t) with
      | false => rfl
      | true =>
        rw [startsWith0x_head a t hp] at ha
        exact absurd ha (by decide)
  have htw : s.takeWhile (fun c => decide (digitVal c < 16)) = [] := by
    cases s with
    | nil => rfl
    | cons a t =>
      have ha := h a rfl
      rw [List.takeWhile_cons]
      simp [Nat.not_lt.mpr ha]
  simp only [hpre, show ¬ ((16 : Nat) = 0) by decide, if_false, and_false, Bool.false_eq_true,
    show ¬ ((16 : Nat) < 2 ∨ 36 < 16) by decide, htw, List.foldl_nil]
  split
  · exact max_eq_left (by omega)
  · exact min_eq_left (by omega)

theorem startsWithHexDigit_false (tok : String) (h : startsWithHexDigit tok = false) :
    ∀ c, (skipSign (skipSpace tok.data)).head? = some c → 16 ≤ digitVal c := by
  intro c hc
  unfold startsWithHexDigit at h
  generalize skipSign (skipSpace tok.data) = s at h hc
  cases s with
  | nil => cases hc
  | cons a t =>
    have hac : a = c := Option.some.inj hc
    rw [hac] at h
    simpa using h

/-- With at least one argument `main` prints the frame of the bytes `custom_byte`. -/
theorem main_custom_data (conv : String → Nat → Int) (argv0 : String) (args : List String)
    (h : 1 ≤ args.length) :
    main conv argv0 args =
      { stdout := stdoutText (print_command (args.map (custom_byte conv))
          (args.length % 65536)), status := 0 } := by
  have hargc : ¬ (args.length + 1 < 2) := by omega
  simp only [main, if_neg hargc, Nat.add_sub_cancel]
  rfl

/-! ## The checksum of a single zero byte -/

/-- Counterexample to C11: the checksum of the one-byte sequence `[0x00]` is not `0x0000`. -/
theorem zero_byte_checksum_nonzero : GetCCITTCRC [0x00] 1 ≠ 0x0000 := by
  decide

/-- C11 (amended): `GetCCITTCRC` applied to the one-byte sequence `[0x00]` returns `0xE1F0`,
the table entry `0x1ef0` at index `0xFF` XORed with the shifted seed `0xFF00`. -/
theorem GetCCITTCRC_zero_byte :
    GetCCITTCRC [0x00] 1 = 0xE1F0 ∧ Temp 0xFFFF 0x00 = 0xFF ∧
    CCITTCRCTable[0xFF]? = some 0x1ef0 ∧ 0x1ef0 ^^^ 0xFF00 = 0xE1F0 :=
  ⟨by decide, by decide, table_entries.2.2, by decide⟩

/-! ## Start marker and wrapped length field -/

/-- C12: for every payload that `print_command` accepts, also those whose `N + 2` does not
fit in 16 bits, the first byte of the emitted frame is the start marker `0x02`. -/
theorem frame_start_marker (payload : List Nat) (_h : payload.length ≤ 65535) :
    (frame payload payload.length)[0]? = some 0x02 := by
  rw [frame_eq]; rfl

/-- Witness for C12 on a payload of 65535 bytes, the largest length the parameter holds. -/
theorem frame_start_marker_witness :
    (List.replicate 65535 0).length ≤ 65535 ∧
    (frame (List.replicate 65535 0) (List.replicate 65535 0).length)[0]? = some 0x02 :=
  ⟨by rw [List.length_replicate],
    frame_start_marker (List.replicate 65535 0) (by rw [List.length_replicate])⟩

/-- C13: `print_command` checks no overflow of the length field: for every payload length
`N ≤ 65535` the frame of `N + 7` bytes is emitted and its two length bytes encode
`(N + 2) mod 2^16`, which is `00 00` for `N = 65534` and `01 00` for `N = 65535`. -/
theorem length_field_wraps (payload : List Nat) (_h : payload.length ≤ 65535) :
    ∃ lo hi, (frame payload payload.length)[1]? = some lo ∧
      (frame payload payload.length)[2]? = some hi ∧
      lo < 256 ∧ hi < 256 ∧ lo + 256 * hi = (payload.length + 2) % 65536 ∧
      (frame payload payload.length).length = payload.length + 7 ∧
      (payload.length = 65534 → lo = 0x00 ∧ hi = 0x00) ∧
      (payload.length = 65535 → lo = 0x01 ∧ hi = 0x00) := by
  have hlo : ∀ x : Nat, x &&& 0xFF = x % 256 := fun x => by
    rw [show (0xFF : Nat) = 2 ^ 8 - 1 by norm_num, Nat.and_pow_two_sub_one_eq_mod]
  refine ⟨((payload.length + 2) % 65536) &&& 0xFF,
    (((payload.length + 2) % 65536) >>> 8) &&& 0xFF, ?_, ?_, and_255_lt _, and_255_lt _,
    ?_, ?_, ?_, ?_⟩
  · rw [frame_eq]; rfl
  · rw [frame_eq]; rfl
  · rw [hlo, hlo, Nat.shiftRight_eq_div_pow]
    omega
  · rw [frame_length, Nat.min_self]
  · intro hN
    rw [hN]
    exact ⟨by decide, by decide⟩
  · intro hN
    rw [hN]
    exact ⟨by decide, by decide⟩

/-- Witness for C13 on a payload of 65534 bytes, whose length field wraps to `00 00`. -/
theorem length_field_wraps_witness :
    (List.replicate 65534 0).length ≤ 65535 ∧
    ∃ lo hi, (frame (List.replicate 65534 0) (List.replicate 65534 0).length)[1]? = some lo ∧
      (frame (List.replicate 65534 0) (List.replicate 65534 0).length)[2]? = some hi ∧
      lo < 256 ∧ hi < 256 ∧ lo + 256 * hi = ((List.replicate 65534 0).length + 2) % 65536 ∧
      (frame (List.replicate 65534 0) (List.replicate 65534 0).length).length
        = (List.replicate 65534 0).length + 7 ∧
      ((List.replicate 65534 0).length = 65534 → lo = 0x00 ∧ hi = 0x00) ∧
      ((List.replicate 65534 0).length = 65535 → lo = 0x01 ∧ hi = 0x00) :=
  ⟨by rw [List.length_replicate]; decide,
    length_field_wraps (List.replicate 65534 0)
      (by rw [List.length_replicate]; decide)⟩

/-! ## Tokens that are not hexadecimal -/

/-- Counterexample to C14: the token `1g` is not a valid hexadecimal string, yet `strtol`
converts its leading digit and `main` stores the byte `0x01` and prints its frame. -/
theorem custom_byte_1g :
    isHexString "1g" = false ∧
    custom_byte (strtol 9223372036854775807) "1g" = 0x01 ∧
    main (strtol 9223372036854775807) "command" ["1g"]
      = { stdout := "02 03 00 AF F7 01 D1 F1\n", status := 0 } := by
  decide

/-- C14 (amended): for every command-line token in which no hexadecimal digit follows the
optional leading white space and sign, the byte that `main` stores is 0, and `main` called
with that single token prints the frame of the payload `[0x00]`. -/
theorem custom_byte_no_hex_digit (LONG_MAX : Nat) (argv0 tok : String)
    (h : startsWithHexDigit tok = false) :
    custom_byte (strtol LONG_MAX) tok = 0 ∧
    main (strtol LONG_MAX) argv0 [tok]
      = { stdout := "02 03 00 AF F7 00 F0 E1\n", status := 0 } := by
  have hb : custom_byte (strtol LONG_MAX) tok = 0 := by
    unfold custom_byte
    rw [strtol_no_digit LONG_MAX tok (startsWithHexDigit_false tok h)]
    rfl
  refine ⟨hb, ?_⟩
  rw [main_custom_data (strtol LONG_MAX) argv0 [tok] (Nat.le_refl 1), List.map_cons,
    List.map_nil, hb, List.length_singleton]
  decide

/-- Witness for C14 (amended) on the token `zz`. -/
theorem custom_byte_no_hex_digit_witness :
    startsWithHexDigit "zz" = false ∧
    custom_byte (strtol 9223372036854775807) "zz" = 0 ∧
    main (strtol 9223372036854775807) "command" ["zz"]
      = { stdout := "02 03 00 AF F7 00 F0 E1\n", status := 0 } :=
  ⟨by decide, custom_byte_no_hex_digit 9223372036854775807 "command" "zz" (by decide)⟩

/-! ## Algebraic properties of the checksum -/

/-- C15: two non-empty byte sequences of equal length that differ in exactly one position
have different checksums; the table entries are pairwise distinct and the loop body is
injective in the register for a fixed byte. -/
theorem GetCCITTCRC_single_byte_change (d e : List Nat)
    (hd : ∀ b ∈ d, b < 256) (he : ∀ b ∈ e, b < 256) (hlen : d.length = e.length)
    (i : Nat) (hi : i < d.length) (hdiff : d[i]? ≠ e[i]?)
    (hsame : ∀ j, j ≠ i → d[j]? = e[j]?) :
    GetCCITTCRC d d.length ≠ GetCCITTCRC e e.length ∧
    (∀ m n, m < 256 → n < 256 → CCITTCRCTable[m]? = CCITTCRCTable[n]? → m = n) ∧
    (∀ c c' b, c < 65536 → c' < 65536 → b < 256 → crcStep c b = crcStep c' b → c = c') := by
  refine ⟨?_, table_inj, fun c c' b hc hc' hb h => crcStep_inj_reg c c' b hc hc' hb h⟩
  have hie : i < e.length := hlen ▸ hi
  have hxy : d[i] ≠ e[i] := by
    intro h
    apply hdiff
    rw [List.getElem?_eq_getElem hi, List.getElem?_eq_getElem hie, h]
  have hsd := split_at d i hi
  have hse := split_at e i hie
  rw [← take_eq_of_same d e i hsame, ← drop_eq_of_same d e i hsame] at hse
  rw [hsd, hse]
  refine crc_single_diff _ _ _ _ hxy (hd _ (List.getElem_mem _)) (he _ (List.getElem_mem _)) ?_
  intro b hb
  exact hd b (List.mem_of_mem_drop hb)

/-- Witness for C15: the "read UID" command and the same command with its last byte changed
from `0x01` to `0x02`. -/
theorem GetCCITTCRC_single_byte_change_witness :
    (∀ b ∈ [0x01, 0x01, 0x00, 0x01, 0x00, 0x01], b < 256) ∧
    (∀ b ∈ [0x01, 0x01, 0x00, 0x01, 0x00, 0x02], b < 256) ∧
    [0x01, 0x01, 0x00, 0x01, 0x00, 0x01].length = [0x01, 0x01, 0x00, 0x01, 0x00, 0x02].length ∧
    5 < [0x01, 0x01, 0x00, 0x01, 0x00, 0x01].length ∧
    [0x01, 0x01, 0x00, 0x01, 0x00, 0x01][5]? ≠ [0x01, 0x01, 0x00, 0x01, 0x00, 0x02][5]? ∧
    (∀ j, j ≠ 5 →
      [0x01, 0x01, 0x00, 0x01, 0x00, 0x01][j]? = [0x01, 0x01, 0x00, 0x01, 0x00, 0x02][j]?) ∧
    GetCCITTCRC [0x01, 0x01, 0x00, 0x01, 0x00, 0x01] 6
      ≠ GetCCITTCRC [0x01, 0x01, 0x00, 0x01, 0x00, 0x02] 6 :=
  have hsame : ∀ j, j ≠ 5 →
      [0x01, 0x01, 0x00, 0x01, 0x00, 0x01][j]? = [0x01, 0x01, 0x00, 0x01, 0x00, 0x02][j]? :=
    fun j hj =>
      match j, hj with
      | 0, _ => rfl
      | 1, _ => rfl
      | 2, _ => rfl
      | 3, _ => rfl
      | 4, _ => rfl
      | 5, h => absurd rfl h
      | _ + 6, _ => rfl
  ⟨by decide, by decide, by decide, by decide, by decide, hsame,
    (GetCCITTCRC_single_byte_change [0x01, 0x01, 0x00, 0x01, 0x00, 0x01]
      [0x01, 0x01, 0x00, 0x01, 0x00, 0x02] (by decide) (by decide) (by decide) 5 (by decide)
      (by decide) hsame).1⟩

/-- C16: for every non-empty byte sequence `d` with checksum `c`, the checksum of `d`
followed by the high byte and then the low byte of `c` is `0x0000`. -/
theorem GetCCITTCRC_residue_zero (d : List Nat) (hne : d ≠ []) :
    GetCCITTCRC
        (d ++ [(GetCCITTCRC d d.length >>> 8) &&& 0xFF, GetCCITTCRC d d.length &&& 0xFF])
        (d ++ [(GetCCITTCRC d d.length >>> 8) &&& 0xFF,
          GetCCITTCRC d d.length &&& 0xFF]).length
      = 0x0000 := by
  have hlen : d.length ≠ 0 := by simpa using hne
  have hc : GetCCITTCRC d d.length = d.foldl crcStep 0xFFFF := by
    rw [GetCCITTCRC, if_neg hlen, List.take_length]
  generalize GetCCITTCRC d d.length = c at hc
  rw [GetCCITTCRC, if_neg (by simp), List.take_length, List.foldl_append, ← hc]
  simp only [List.foldl_cons, List.foldl_nil]
  exact crcStep_residue c (hc ▸ foldl_crcStep_lt d 0xFFFF (by norm_num))

/-- Witness for C16 on the one-byte dummy command, whose checksum is `0xE1F0`. -/
theorem GetCCITTCRC_residue_zero_witness :
    [0x00] ≠ [] ∧ GetCCITTCRC [0x00] 1 = 0xE1F0 ∧ GetCCITTCRC [0x00, 0xE1, 0xF0] 3 = 0x0000 :=
  ⟨by decide, by decide, GetCCITTCRC_residue_zero [0x00] (by decide)⟩

/-! ## Injectivity of the frame -/

/-- C17: for payloads `p` and `q` of lengths at most 65535, if `print_command` emits the same
byte sequence for both then `p = q`; the payload is the `N` bytes of the frame from index 5,
and the frame has `N + 7` bytes. -/
theorem frame_injective (p q : List Nat) (_hp : p.length ≤ 65535) (_hq : q.length ≤ 65535)
    (h : frame p p.length = frame q q.length) :
    p = q ∧ ((frame p p.length).drop 5).take p.length = p ∧
    (frame p p.length).length = p.length + 7 := by
  refine ⟨frame_inj p q h, ?_, ?_⟩
  · have hp := frame_payload p p.length
    rw [Nat.min_self, List.take_length] at hp
    exact hp
  · rw [frame_length, Nat.min_self]

/-- Witness for C17 on the five-byte "output UID" command of the source. -/
theorem frame_injective_witness :
    [0x02, 0x14, 0x00, 0x0A, 0x00].length ≤ 65535 ∧
    frame [0x02, 0x14, 0x00, 0x0A, 0x00] 5 = frame [0x02, 0x14, 0x00, 0x0A, 0x00] 5 ∧
    ((frame [0x02, 0x14, 0x00, 0x0A, 0x00] 5).drop 5).take 5
      = [0x02, 0x14, 0x00, 0x0A, 0x00] :=
  ⟨by decide, rfl,
    (frame_injective [0x02, 0x14, 0x00, 0x0A, 0x00] [0x02, 0x14, 0x00, 0x0A, 0x00]
      (by decide) (by decide) rfl).2.1⟩

/-! ## Memory safety of the table read -/

/-- C18: for every register value and data byte the index `Temp` is below 256, the number
of table entries, so the checked loop body succeeds with the 16-bit value of the unchecked
one; on every byte sequence every table index read is below 256 and `GetCCITTCRC` with all
reads checked returns the 16-bit result. -/
theorem GetCCITTCRC_lookup_in_bounds (CRC b : Nat) (Data : List Nat) :
    Temp CRC b < 256 ∧ Temp CRC b < CCITTCRCTable.length ∧
    crcStep_checked CRC b = some (crcStep CRC b) ∧ crcStep CRC b < 65536 ∧
    (∀ i ∈ GetCCITTCRC_lookups Data Data.length, i < 256) ∧
    GetCCITTCRC_checked Data Data.length = some (GetCCITTCRC Data Data.length) ∧
    GetCCITTCRC Data Data.length < 65536 :=
  ⟨Temp_lt CRC b, by rw [table_length]; exact Temp_lt CRC b, crcStep_checked_eq CRC b,
    crcStep_lt CRC b, lookups_lt Data Data.length, GetCCITTCRC_checked_eq Data,
    GetCCITTCRC_lt Data Data.length⟩

end Command
